import Mathlib

/-!
Verification development for the resolution pipeline of the Capstone log-RAG
repository.  Python strings are modelled as `List Char`, Python floats as
exact rationals (`ℚ`, extended with infinities and NaN where Python float
semantics require it), fallible code as `Option`/`Except`, and the regular
expression substitutions of `app/utils/text_cleaner.py` as direct character
scanners for the concrete patterns appearing in the source.
-/

/-- Characters of a Lean string literal, used to write concrete Python strings. -/
def strChars (s : String) : List Char := s.data

/-- Model of Python whitespace for both the regex class backslash-s and
str.strip(): the ASCII whitespace characters plus the file/group/record
separators, NEL and NBSP recognised by CPython. -/
def pyIsSpace (c : Char) : Bool :=
  c = ' ' || c = '\t' || c = '\n' || c = '\r' || c = '\x0b' || c = '\x0c' ||
  c = '\x1c' || c = '\x1d' || c = '\x1e' || c = '\x1f' || c = '\x85' || c = '\xa0'

/-- Model of a regex word character (backslash-w) in the ASCII range:
letters, digits and the underscore. -/
def isWordChar (c : Char) : Bool := c.isAlphanum || c = '_'

/-- Hexadecimal digit, either case (the uuid and hex patterns in
normalize_text are compiled with re.IGNORECASE). -/
def isHexChar (c : Char) : Bool :=
  c.isDigit || ('a' ≤ c && c ≤ 'f') || ('A' ≤ c && c ≤ 'F')

/-- str.lower(), characterwise (ASCII model). -/
def lowerStr (l : List Char) : List Char := l.map Char.toLower

/-- Length of the maximal run of characters satisfying p at the front of l. -/
def runLen (p : Char → Bool) : List Char → Nat
  | [] => 0
  | c :: cs => if p c then runLen p cs + 1 else 0

/-- A word boundary (backslash-b) holds before the current position when the
previous character (none at the start of the text) is not a word character;
all the anchored patterns below additionally start with a word character. -/
def prevNonWord : Option Char → Bool
  | none => true
  | some c => !(isWordChar c)

/-- In re.MULTILINE mode the caret matches at the start of the text and
immediately after each newline character. -/
def atLineStart : Option Char → Bool
  | none => true
  | some c => c = '\n'

/-- Engine for re.sub with a fixed pattern: scan left to right over the
original text, carrying the previous character for boundary/anchor context; a
matcher returns the length of the (necessarily non-empty) match at the current
position.  Matches are non-overlapping and replacements are not rescanned,
exactly as in re.sub.  Fuel is the length of the scanned text, so it never
runs out. -/
def subScanGo (m : Option Char → List Char → Option Nat) (repl : List Char) :
    Nat → Option Char → List Char → List Char
  | 0, _, l => l
  | _, _, [] => []
  | fuel + 1, prev, c :: cs =>
    match m prev (c :: cs) with
    | some (n + 1) => repl ++ subScanGo m repl fuel ((c :: cs).get? n) (cs.drop n)
    | _ => c :: subScanGo m repl fuel (some c) cs

/-- re.sub(pattern, repl, text) for a pattern modelled by matcher m. -/
def subScan (m : Option Char → List Char → Option Nat) (repl : List Char)
    (l : List Char) : List Char :=
  subScanGo m repl l.length none l

/-- All of the k characters of l starting at position off satisfy p. -/
def segAll (p : Char → Bool) (l : List Char) (off k : Nat) : Bool :=
  (List.range k).all (fun i => ((l.get? (off + i)).map p).getD false)

/-- Character at position n of l equals c. -/
def charAt (l : List Char) (n : Nat) (c : Char) : Bool := l.get? n = some c

/-- Matcher for the uuid pattern [0-9a-f]{8}-[0-9a-f]{4}-[0-9a-f]{4}-
[0-9a-f]{4}-[0-9a-f]{12} (IGNORECASE, no anchors): a fixed 36-character
shape. -/
def matchUuid (_ : Option Char) (l : List Char) : Option Nat :=
  if segAll isHexChar l 0 8 && charAt l 8 '-' &&
     segAll isHexChar l 9 4 && charAt l 13 '-' &&
     segAll isHexChar l 14 4 && charAt l 18 '-' &&
     segAll isHexChar l 19 4 && charAt l 23 '-' &&
     segAll isHexChar l 24 12
  then some 36 else none

/-- One group backslash-d{1,3} followed by a dot, starting at off.  Because a
shorter-than-maximal digit take is always followed by another digit (never by
the required dot), the group succeeds exactly when the full digit run has
length 1 to 3 and is followed by a dot; it consumes run + 1 characters. -/
def digitsDotAt (l : List Char) (off : Nat) : Option Nat :=
  let r := runLen Char.isDigit (l.drop off)
  if 1 ≤ r && r ≤ 3 && charAt l (off + r) '.' then some (r + 1) else none

/-- Final backslash-d{1,3} followed by a word boundary, starting at off: if
the digit run exceeds 3 the greedy take of 3 (or fewer) is followed by a
digit, so the boundary fails for every take; otherwise the full run is taken
and the following character must be absent or a non-word character. -/
def digitsBoundaryAt (l : List Char) (off : Nat) : Option Nat :=
  let r := runLen Char.isDigit (l.drop off)
  if 1 ≤ r && r ≤ 3 &&
     (match l.get? (off + r) with | none => true | some c => !(isWordChar c))
  then some r else none

/-- Matcher for the IP pattern backslash-b(?:backslash-d{1,3}backslash-.){3}
backslash-d{1,3}backslash-b. -/
def matchIp (prev : Option Char) (l : List Char) : Option Nat :=
  if prevNonWord prev then
    match digitsDotAt l 0 with
    | some n1 =>
      match digitsDotAt l n1 with
      | some n2 =>
        match digitsDotAt l (n1 + n2) with
        | some n3 =>
          match digitsBoundaryAt l (n1 + n2 + n3) with
          | some n4 => some (n1 + n2 + n3 + n4)
          | none => none
        | none => none
      | none => none
    | none => none
  else none

/-- Matcher for the long-hex pattern backslash-b[0-9a-f]{16,}backslash-b
(IGNORECASE): the greedy take of the whole hexadecimal run must be followed by
a non-word character or the end of text (any shorter take is followed by a
hex, hence word, character). -/
def matchHex (prev : Option Char) (l : List Char) : Option Nat :=
  if prevNonWord prev then
    let r := runLen isHexChar l
    if 16 ≤ r &&
       (match l.get? r with | none => true | some c => !(isWordChar c))
    then some r else none
  else none

/-- Optional fractional part (?:backslash-.backslash-d+)? at off: present only
when a dot is followed by at least one digit (the digit run is taken
greedily). -/
def isoFracAt (l : List Char) (off : Nat) : Nat :=
  if charAt l off '.' then
    let r := runLen Char.isDigit (l.drop (off + 1))
    if 1 ≤ r then 1 + r else 0
  else 0

/-- Optional timezone (?:Z|[+-]backslash-d{2}:backslash-d{2})? at off. -/
def isoTzAt (l : List Char) (off : Nat) : Nat :=
  if charAt l off 'Z' then 1
  else if (charAt l off '+' || charAt l off '-') &&
          segAll Char.isDigit l (off + 1) 2 && charAt l (off + 3) ':' &&
          segAll Char.isDigit l (off + 4) 2
  then 6 else 0

/-- Matcher for the ISO timestamp pattern backslash-d{4}-backslash-d{2}-
backslash-d{2}[T ]backslash-d{2}:backslash-d{2}:backslash-d{2}
(?:backslash-.backslash-d+)?(?:Z|[+-]backslash-d{2}:backslash-d{2})?.  The
pattern is compiled without IGNORECASE although it is applied to lowercased
text, so the literal T and Z branches only fire on those exact characters. -/
def matchIso (_ : Option Char) (l : List Char) : Option Nat :=
  if segAll Char.isDigit l 0 4 && charAt l 4 '-' &&
     segAll Char.isDigit l 5 2 && charAt l 7 '-' &&
     segAll Char.isDigit l 8 2 &&
     (charAt l 10 'T' || charAt l 10 ' ') &&
     segAll Char.isDigit l 11 2 && charAt l 13 ':' &&
     segAll Char.isDigit l 14 2 && charAt l 16 ':' &&
     segAll Char.isDigit l 17 2
  then
    let f := isoFracAt l 19
    some (19 + f + isoTzAt l (19 + f))
  else none

/-- Matcher for the Unix timestamp pattern backslash-b backslash-d{10}
backslash-. backslash-d+ backslash-b: the exact quantifier forces the leading
digit run to have length exactly 10, and the trailing boundary forces the
greedy take of the full fractional digit run. -/
def matchUnix (prev : Option Char) (l : List Char) : Option Nat :=
  if prevNonWord prev then
    let r := runLen Char.isDigit l
    if r = 10 && charAt l 10 '.' then
      let f := runLen Char.isDigit (l.drop 11)
      if 1 ≤ f &&
         (match l.get? (11 + f) with | none => true | some c => !(isWordChar c))
      then some (11 + f) else none
    else none
  else none

/-- re.sub(backslash-s+, " ", text): every maximal whitespace run collapses to
a single space. -/
def collapseWs : List Char → List Char
  | [] => []
  | [c] => if pyIsSpace c then [' '] else [c]
  | c1 :: c2 :: cs =>
    if pyIsSpace c1 then
      (if pyIsSpace c2 then collapseWs (c2 :: cs) else ' ' :: collapseWs (c2 :: cs))
    else c1 :: collapseWs (c2 :: cs)

/-- str.strip(): drop whitespace from both ends. -/
def pyStrip (l : List Char) : List Char :=
  ((l.dropWhile pyIsSpace).reverse.dropWhile pyIsSpace).reverse

/-- The five placeholder substitutions of normalize_text, in source order:
uuid, IP address, long hexadecimal token, ISO timestamp, Unix timestamp. -/
def substPass (l : List Char) : List Char :=
  subScan matchUnix (strChars "<timestamp>")
    (subScan matchIso (strChars "<timestamp>")
      (subScan matchHex (strChars "<hex_id>")
        (subScan matchIp (strChars "<ip>")
          (subScan matchUuid (strChars "<uuid>") l))))

/-- normalize_text from app/utils/text_cleaner.py: empty text is returned as
is; otherwise lowercase, apply the five placeholder substitutions, collapse
whitespace runs to single spaces and strip. -/
def normalize_text (l : List Char) : List Char :=
  if l = [] then []
  else pyStrip (collapseWs (substPass (lowerStr l)))

/-- Matcher for the date-prefix pattern caret backslash-d{4}-backslash-d{2}-
backslash-d{2}[^backslash-s]*backslash-s+ (re.MULTILINE), used by
extract_error_message. -/
def matchDatePre (prev : Option Char) (l : List Char) : Option Nat :=
  if atLineStart prev &&
     segAll Char.isDigit l 0 4 && charAt l 4 '-' &&
     segAll Char.isDigit l 5 2 && charAt l 7 '-' &&
     segAll Char.isDigit l 8 2
  then
    let k := runLen (fun c => !(pyIsSpace c)) (l.drop 10)
    let s := runLen pyIsSpace (l.drop (10 + k))
    if 1 ≤ s then some (10 + k + s) else none
  else none

/-- Matcher for the bracket-prefix pattern caret backslash-[[^backslash-]]+
backslash-]backslash-s+ (re.MULTILINE). -/
def matchBracketPre (prev : Option Char) (l : List Char) : Option Nat :=
  if atLineStart prev && charAt l 0 '[' then
    let b := runLen (fun c => c ≠ ']') (l.drop 1)
    if 1 ≤ b && charAt l (1 + b) ']' then
      let s := runLen pyIsSpace (l.drop (1 + b + 1))
      if 1 ≤ s then some (1 + b + 1 + s) else none
    else none
  else none

/-- Matcher for the uppercase-prefix pattern caret [A-Z]+backslash-s+
(re.MULTILINE): the greedy take of the full uppercase run must be followed by
whitespace. -/
def matchUpperPre (prev : Option Char) (l : List Char) : Option Nat :=
  if atLineStart prev then
    let u := runLen (fun c => 'A' ≤ c && c ≤ 'Z') l
    if 1 ≤ u then
      let s := runLen pyIsSpace (l.drop u)
      if 1 ≤ s then some (u + s) else none
    else none
  else none

/-- str.split(by newline): splits at every newline character, keeping empty
pieces; the result is never the empty list. -/
def splitNl : List Char → List (List Char)
  | [] => [[]]
  | c :: rest =>
    if c = '\n' then [] :: splitNl rest
    else
      match splitNl rest with
      | s :: ss => (c :: s) :: ss
      | [] => [[c]]

/-- extract_error_message from app/utils/text_cleaner.py: remove date,
bracket and uppercase line prefixes (each substitution applied once over the
whole text, in order), strip, split on newlines, take the first piece
stripped, truncating with an ellipsis beyond max_length.  The raw-input
branch for an empty line list is kept although str.split never returns an
empty list. -/
def extract_error_message (text : List Char) (maxLength : Nat) : List Char :=
  let cleaned :=
    subScan matchUpperPre []
      (subScan matchBracketPre []
        (subScan matchDatePre [] text))
  match splitNl (pyStrip cleaned) with
  | first :: _ =>
    let message := pyStrip first
    if maxLength < message.length then message.take maxLength ++ strChars "..."
    else message
  | [] => if maxLength < text.length then text.take maxLength else text

/-!  Model of Python values flowing out of json.loads and through the
generative-result normalization: numbers (Python floats as rationals extended
with the infinities and NaN that json.loads admits), strings, booleans, None,
lists and string-keyed dictionaries. -/

/-- A Python float: finite values are modelled as exact rationals. -/
inductive ExtFloat where
  | fin (q : ℚ)
  | inf
  | ninf
  | nan
deriving DecidableEq

/-- A Python value as produced by json.loads or built by the fallback
parser. -/
inductive PyVal where
  | vnum (x : ExtFloat)
  | vstr (s : List Char)
  | vbool (b : Bool)
  | vnull
  | vlist (xs : List PyVal)
  | vdict (kvs : List (List Char × PyVal))

/-- Python truthiness. -/
def pyTruthy : PyVal → Bool
  | .vnum (.fin q) => decide (q ≠ 0)
  | .vnum _ => true
  | .vstr s => !s.isEmpty
  | .vbool b => b
  | .vnull => false
  | .vlist xs => !xs.isEmpty
  | .vdict kvs => !kvs.isEmpty

/-- dict.get(key, default): association-list lookup with a default. -/
def dictGet (kvs : List (List Char × PyVal)) (k : List Char) (dflt : PyVal) : PyVal :=
  match kvs.lookup k with
  | some v => v
  | none => dflt

/-- Continuation of a digit run inside a Python float literal: consumes
further digits, where a single underscore may stand between two digits;
returns the digit characters and the number of characters consumed. -/
def undTail : List Char → (List Char × Nat)
  | '_' :: c :: cs =>
    if c.isDigit then
      let (ds, n) := undTail cs
      (c :: ds, n + 2)
    else ([], 0)
  | c :: cs =>
    if c.isDigit then
      let (ds, n) := undTail cs
      (c :: ds, n + 1)
    else ([], 0)
  | [] => ([], 0)

/-- Leading run of digits possibly separated by single underscores, as
accepted inside Python float literals: returns the digit characters and the
number of characters consumed, or none when no leading digit exists. -/
def pyDigitsUnd : List Char → Option (List Char × Nat)
  | c :: rest =>
    if c.isDigit then
      let (ds, n) := undTail rest
      some (c :: ds, n + 1)
    else none
  | [] => none

/-- Natural number denoted by a list of decimal digit characters. -/
def digitsToNat (ds : List Char) : Nat :=
  ds.foldl (fun a c => a * 10 + (c.toNat - 48)) 0

/-- Mantissa of a Python float literal: digits [. digits?] or . digits;
returns (integer digits, fraction digits, rest). -/
def pyFloatMantissa (l : List Char) : Option (List Char × List Char × List Char) :=
  match pyDigitsUnd l with
  | some (ds, n) =>
    match l.drop n with
    | '.' :: rest =>
      match pyDigitsUnd rest with
      | some (fs, m) => some (ds, fs, rest.drop m)
      | none => some (ds, [], rest)
    | rest => some (ds, [], rest)
  | none =>
    match l with
    | '.' :: rest =>
      match pyDigitsUnd rest with
      | some (fs, m) => some ([], fs, rest.drop m)
      | none => none
    | _ => none

/-- Optional exponent part e[+-]?digits of a Python float literal; the whole
remainder must be consumed. -/
def pyFloatExp (l : List Char) : Option ℤ :=
  match l with
  | [] => some 0
  | e :: rest =>
    if e = 'e' || e = 'E' then
      let (sgn, rest2) : ℤ × List Char :=
        match rest with
        | '+' :: r => (1, r)
        | '-' :: r => (-1, r)
        | r => (1, r)
      match pyDigitsUnd rest2 with
      | some (ds, n) => if rest2.drop n = [] then some (sgn * digitsToNat ds) else none
      | none => none
    else none

/-- float(s) for a Python string s: strip whitespace, optional sign, then a
case-insensitive inf/infinity/nan literal or a decimal mantissa with optional
exponent.  Returns none when float() raises ValueError. -/
def parsePyFloatStr (s : List Char) : Option ExtFloat :=
  let t := pyStrip s
  let (neg, body) : Bool × List Char :=
    match t with
    | '+' :: r => (false, r)
    | '-' :: r => (true, r)
    | r => (false, r)
  let low := lowerStr body
  if low = strChars "inf" || low = strChars "infinity" then
    some (if neg then .ninf else .inf)
  else if low = strChars "nan" then some .nan
  else
    match pyFloatMantissa body with
    | some (ds, fs, rest) =>
      match pyFloatExp rest with
      | some e =>
        let base : ℚ := (digitsToNat ds : ℚ) + (digitsToNat fs : ℚ) / (10 : ℚ) ^ fs.length
        let v : ℚ := base * (10 : ℚ) ^ e
        some (.fin (if neg then -v else v))
      | none => none
    | none => none

/-- float(v) for an arbitrary Python value: floats pass through, booleans
become 0 or 1, strings are parsed, and anything else raises (None, lists and
dictionaries), modelled as none. -/
def pyFloat : PyVal → Option ExtFloat
  | .vnum x => some x
  | .vbool b => some (.fin (if b then 1 else 0))
  | .vstr s => parsePyFloatStr s
  | _ => none

/-- max(0.0, min(1.0, c)) with Python ordering semantics on floats: min
returns its second argument only when that argument compares strictly less,
so NaN propagates to 1.0 and the infinities clamp to the endpoints. -/
def clampConfidence : ExtFloat → ℚ
  | .fin q => max 0 (min 1 q)
  | .inf => 1
  | .ninf => 0
  | .nan => 1

/-- Normalized output of generate_resolution: the dictionary with keys
root_cause, recommended_fix and confidence that the function returns. -/
structure GenOutput where
  root_cause : PyVal
  recommended_fix : PyVal
  confidence : ℚ

/-- Validation tail of RAGEngine.generate_resolution (rag_engine.py lines
146-158) applied to the parsed response value: fetch the three keys with
their defaults, convert confidence with float() and clamp it to [0, 1].
Returns none when the code raises (non-dictionary parse result, or a
confidence value float() rejects), in which case the surrounding handler
re-raises a RAGError and no result is produced. -/
def generate_resolution_post (result : PyVal) : Option GenOutput :=
  match result with
  | .vdict kvs =>
    match pyFloat (dictGet kvs (strChars "confidence") (.vnum (.fin (1/2)))) with
    | some x =>
      some { root_cause := dictGet kvs (strChars "root_cause") (.vstr (strChars "Unable to determine root cause"))
             recommended_fix := dictGet kvs (strChars "recommended_fix") (.vstr (strChars "No specific fix recommended"))
             confidence := clampConfidence x }
    | none => none
  | _ => none

/-!  Retriever.format_retrieval_results (app/services/retriever.py lines
83-116).  A raw vector-store hit is a dictionary whose id, similarity,
document and log_metadata keys may each be absent; metadata is a
string-to-string map as written by store_log_with_embedding. -/

/-- A raw retrieval result as returned by VectorStore.query_similar. -/
structure RawHit where
  rid : Option (List Char)
  similarity : Option ℚ
  document : Option (List Char)
  log_metadata : Option (List (List Char × List Char))

/-- result.get(key-log_metadata, empty dict). -/
def metaOf (h : RawHit) : List (List Char × List Char) := h.log_metadata.getD []

/-- log_metadata.get(key-log_id): absent key gives Python None. -/
def metaLogId (h : RawHit) : Option (List Char) := (metaOf h).lookup (strChars "log_id")

/-- Truthiness of an optional Python string: None and the empty string are
falsy. -/
def truthyOptStr : Option (List Char) → Bool
  | some l => !l.isEmpty
  | none => false

/-- str(n) for a Python integer. -/
def intStr (n : ℤ) : List Char := (toString n).data

/-- One formatted entry of the list built by format_retrieval_results. -/
structure FormattedHit where
  id : Option (List Char)
  similarity : ℚ
  document : List Char
  service_name : List Char
  error_level : List Char
  error_message : List Char

/-- The dictionary appended for one raw hit: the id prefers the truthy
metadata log_id over the raw hit id (Python or), and the remaining fields
take their metadata or top-level defaults. -/
def formatHit (h : RawHit) : FormattedHit :=
  let lid := metaLogId h
  { id := if truthyOptStr lid then lid else h.rid
    similarity := h.similarity.getD 0
    document := h.document.getD []
    service_name := ((metaOf h).lookup (strChars "service_name")).getD (strChars "unknown")
    error_level := ((metaOf h).lookup (strChars "error_level")).getD (strChars "UNKNOWN")
    error_message := ((metaOf h).lookup (strChars "error_message")).getD [] }

/-- The skip test of retriever.py line 102: exclude_id and log_id and
str(log_id) == str(exclude_id), with Python truthiness on both. -/
def shouldSkip (excludeId : Option ℤ) (h : RawHit) : Bool :=
  match excludeId, metaLogId h with
  | some n, some lid => decide (n ≠ 0) && !lid.isEmpty && decide (lid = intStr n)
  | _, _ => false

/-- Retriever.format_retrieval_results: walk the hits in index order,
skipping those the test above rejects and formatting the rest. -/
def format_retrieval_results : List RawHit → Option ℤ → List FormattedHit
  | [], _ => []
  | r :: rs, excludeId =>
    if shouldSkip excludeId r then format_retrieval_results rs excludeId
    else formatHit r :: format_retrieval_results rs excludeId

/-!  Resolver._normalize_recommended_fix (app/services/resolver.py lines
35-58) and Resolver.resolve_log_entry (lines 116-186). -/

/-- The character set of the strip call on resolver.py line 52.  The source
file holds the UTF-8 bytes of a mojibake rendering of the bullet character:
the set is space, hyphen, the three characters a-circumflex, euro sign and
cent sign, and tab; the bullet itself is not in the set. -/
def bulletSet : List Char := [' ', '-', 'â', '€', '¢', '\t']

/-- str.strip(chars): drop characters of the set from both ends. -/
def pyStripChars (set : List Char) (l : List Char) : List Char :=
  ((l.dropWhile (fun c => set.contains c)).reverse.dropWhile (fun c => set.contains c)).reverse

/-- A Python line-break character for str.splitlines. -/
def isLineBreakChar (c : Char) : Bool :=
  c = '\n' || c = '\r' || c = '\x0b' || c = '\x0c' || c = '\x1c' ||
  c = '\x1d' || c = '\x1e' || c = '\x85' || c = ' ' || c = ' '

/-- Worker for str.splitlines: every break character (with CRLF as a single
break) ends a line; a final unterminated fragment is kept only when it is
non-empty. -/
def splitlinesGo : List Char → List Char → List (List Char)
  | [], acc => if acc.isEmpty then [] else [acc.reverse]
  | '\r' :: '\n' :: rest, acc => acc.reverse :: splitlinesGo rest []
  | c :: rest, acc =>
    if isLineBreakChar c then acc.reverse :: splitlinesGo rest []
    else splitlinesGo rest (c :: acc)

/-- str.splitlines(). -/
def pySplitlines (l : List Char) : List (List Char) := splitlinesGo l []

/-- Fractional digits of the decimal expansion of a rational in [0, 1),
seventeen places at most, stopping at an exact zero remainder. -/
def fracDigitsGo : Nat → ℚ → List Char
  | 0, _ => []
  | k + 1, x =>
    if x = 0 then []
    else
      let y := x * 10
      let d := (⌊y⌋).toNat
      Char.ofNat (48 + d) :: fracDigitsGo k (y - d)

/-- Model of str() on a Python float, with floats carried as exact
rationals: sign, integer part, a point and the fractional digits (a single
zero when the value is integral). -/
def ratRepr (q : ℚ) : List Char :=
  let sign : List Char := if q < 0 then ['-'] else []
  let a := |q|
  let ip := (⌊a⌋).toNat
  let ds := fracDigitsGo 17 (a - ip)
  sign ++ (toString ip).data ++ '.' :: (if ds.isEmpty then ['0'] else ds)

/-- str() on an extended float. -/
def extFloatStr : ExtFloat → List Char
  | .fin q => ratRepr q
  | .inf => strChars "inf"
  | .ninf => strChars "-inf"
  | .nan => strChars "nan"

mutual
/-- repr() of a Python value: like str() except that strings are quoted;
used for the elements of containers. -/
def pyRepr : PyVal → List Char
  | .vnum x => extFloatStr x
  | .vstr s => Char.ofNat 39 :: s ++ [Char.ofNat 39]
  | .vbool b => if b then strChars "True" else strChars "False"
  | .vnull => strChars "None"
  | .vlist xs => '[' :: pyReprList xs ++ [']']
  | .vdict kvs => Char.ofNat 123 :: pyReprDict kvs ++ [Char.ofNat 125]

/-- Comma-joined element reprs of a list. -/
def pyReprList : List PyVal → List Char
  | [] => []
  | [x] => pyRepr x
  | x :: y :: xs => pyRepr x ++ strChars ", " ++ pyReprList (y :: xs)

/-- Comma-joined key: value reprs of a dictionary. -/
def pyReprDict : List (List Char × PyVal) → List Char
  | [] => []
  | [(k, v)] => pyRepr (.vstr k) ++ strChars ": " ++ pyRepr v
  | (k, v) :: e :: kvs => pyRepr (.vstr k) ++ strChars ": " ++ pyRepr v ++ strChars ", " ++ pyReprDict (e :: kvs)
end

/-- str() of a Python value: strings pass through unquoted, containers
render through repr. -/
def pyStr : PyVal → List Char
  | .vstr s => s
  | v => pyRepr v

/-- Resolver._normalize_recommended_fix: falsy values give the empty list; a
list maps each element through str and whitespace strip, keeping the
non-empty results; a string is split into lines, keeping each line whose
whitespace strip is non-empty and stripping the bulletSet characters from
both of its ends, falling back to the whole stripped string when no line
survives the filter; anything else is stringified into a singleton. -/
def normalize_recommended_fix (v : PyVal) : List (List Char) :=
  if !pyTruthy v then []
  else
    match v with
    | .vlist xs => (xs.map (fun i => pyStrip (pyStr i))).filter (fun s => !s.isEmpty)
    | .vstr s =>
      let ls := ((pySplitlines s).filter (fun ln => !(pyStrip ln).isEmpty)).map (pyStripChars bulletSet)
      if ls.isEmpty then [pyStrip s] else ls
    | other => [pyStr other]

/-- A stored log entry, with the fields resolve_log_entry reads; the
normalized_text column is nullable. -/
structure LogEntry where
  id : ℤ
  service_name : List Char
  error_level : List Char
  error_message : List Char
  normalized_text : Option (List Char)

/-- log_entry.normalized_text or log_entry.error_message: Python or falls
through on None and on the empty string. -/
def queryTextOf (e : LogEntry) : List Char :=
  match e.normalized_text with
  | some l => if l.isEmpty then e.error_message else l
  | none => e.error_message

/-- Outcome of the resolution-record persistence attempt: the commit either
returns a fresh row id or raises. -/
inductive DbOutcome where
  | commitOk (id : ℤ)
  | commitFail

/-- The dictionary returned by resolve_log_entry. -/
structure ResolveLogOutput where
  log_entry_id : ℤ
  error_message : List Char
  service_name : List Char
  error_level : List Char
  root_cause : PyVal
  recommended_fix : List (List Char)
  confidence : ℚ
  similar_logs : List FormattedHit
  resolution_id : Option ℤ

/-- The context string interpolated on resolver.py line 142. -/
def resolutionContext (e : LogEntry) : List Char :=
  strChars "Service: " ++ e.service_name ++ strChars ", Level: " ++ e.error_level

/-- Resolver.resolve_log_entry (resolver.py lines 116-186), with the
external capabilities passed as functions: retrieval and generation may
raise (Except.error, escalated by the outer handler as a RAGError), the
optional database session is summarised by its commit outcome, and the
returned Boolean records whether db_session.rollback() ran.  Retrieval asks
for top_k + 1 hits, formatting excludes the entry id and the result is
truncated to top_k; a persistence failure is absorbed: the transaction is
rolled back and the computed result is returned with a missing
resolution_id. -/
def resolve_log_entry (logEntry : LogEntry) (topK : Nat)
    (retrieve : List Char → Nat → Except Unit (List RawHit))
    (generate : List Char → List FormattedHit → List Char → Except Unit GenOutput)
    (db : Option DbOutcome) : Except Unit (ResolveLogOutput × Bool) :=
  match retrieve (queryTextOf logEntry) (topK + 1) with
  | .error _ => .error ()
  | .ok similarResults =>
    let similarLogs := (format_retrieval_results similarResults (some logEntry.id)).take topK
    match generate logEntry.error_message similarLogs (resolutionContext logEntry) with
    | .error _ => .error ()
    | .ok resolution =>
      let normalizedFix := normalize_recommended_fix resolution.recommended_fix
      let (resolutionId, rolledBack) : Option ℤ × Bool :=
        match db with
        | none => (none, false)
        | some (.commitOk i) => (some i, false)
        | some .commitFail => (none, true)
      .ok ({ log_entry_id := logEntry.id
             error_message := logEntry.error_message
             service_name := logEntry.service_name
             error_level := logEntry.error_level
             root_cause := resolution.root_cause
             recommended_fix := normalizedFix
             confidence := resolution.confidence
             similar_logs := similarLogs
             resolution_id := resolutionId }, rolledBack)

/-!  RAGEngine._build_prompt and the truncation step of generate_resolution
(app/services/rag_engine.py lines 28-78 and 101-103). -/

/-- Round to an integer, halves to even, applied after scaling by 100: the
model of the binary rounding behind the Python format specifier .2f with
floats carried as exact rationals. -/
def roundHalfEven (x : ℚ) : ℤ :=
  let f := ⌊x⌋
  let r := x - f
  if r < 1 / 2 then f
  else if 1 / 2 < r then f + 1
  else if f % 2 = 0 then f else f + 1

/-- Two-digit zero-padded decimal rendering of a natural number below 100. -/
def pad2 (k : Nat) : List Char :=
  if k < 10 then '0' :: (toString k).data else (toString k).data

/-- format(q, .2f): sign, integer digits, point, two fractional digits. -/
def fmt2 (q : ℚ) : List Char :=
  let n := roundHalfEven (q * 100)
  let a := n.natAbs
  (if q < 0 then ['-'] else []) ++ (toString (a / 100)).data ++ '.' :: pad2 (a % 100)

/-- One enumerated similar-log line of the prompt, from the f-string on
rag_engine.py line 59. -/
def promptLine (i : Nat) (log : FormattedHit) : List Char :=
  (toString i).data ++ strChars ". [Similarity: " ++ fmt2 log.similarity ++
    strChars "] [" ++ log.service_name ++ strChars "] [" ++ log.error_level ++
    strChars "]: " ++ log.error_message

/-- The similar-log block lines: the first five logs, enumerated from 1. -/
def enumeratedLines (logs : List FormattedHit) : List (List Char) :=
  (logs.take 5).enum.map (fun p => promptLine (p.1 + 1) p.2)

/-- RAGEngine._build_prompt: the fixed preamble, the current error, the
similar-log block when the list is non-empty, the optional context line when
the context string is truthy, and the fixed closing instructions, joined with
newlines. -/
def build_prompt (errorMessage : List Char) (similarLogs : List FormattedHit)
    (context : Option (List Char)) : List Char :=
  let base : List (List Char) :=
    [strChars "You are an expert DevOps engineer analyzing application logs and errors.",
     strChars "Your task is to provide root cause analysis and recommended fixes based on the current error and similar historical errors.",
     [],
     strChars "CURRENT ERROR:",
     errorMessage,
     []]
  let withSim := base ++
    (if !similarLogs.isEmpty then
      (strChars "SIMILAR HISTORICAL ERRORS:" :: enumeratedLines similarLogs) ++ [[]]
     else [])
  let withCtx := withSim ++
    (match context with
     | some ctx => if !ctx.isEmpty then [strChars "ADDITIONAL CONTEXT: " ++ ctx, []] else []
     | none => [])
  let parts := withCtx ++
    [strChars "Please provide:",
     strChars "1. ROOT CAUSE: A brief explanation of the likely root cause",
     strChars "2. RECOMMENDED FIX: Specific actionable steps to resolve the issue",
     strChars "3. CONFIDENCE: A confidence score from 0.0 to 1.0",
     [],
     strChars "Format your response as JSON with keys: \x27root_cause\x27, \x27recommended_fix\x27, \x27confidence\x27"]
  List.intercalate ['\n'] parts

/-- The prompt actually sent to the completion call (rag_engine.py lines
101-103): when the assembled prompt is longer than the configured
max_context_length it is cut to that length and the truncation marker is
appended. -/
def sent_prompt (maxContextLength : Nat) (errorMessage : List Char)
    (similarLogs : List FormattedHit) (context : Option (List Char)) : List Char :=
  let prompt := build_prompt errorMessage similarLogs context
  if maxContextLength < prompt.length then
    prompt.take maxContextLength ++ strChars "...[truncated]"
  else prompt

/-- The adjacency relation of a whitespace-collapsed text: no two adjacent
whitespace characters. -/
def noTwoWs (a b : Char) : Prop := ¬(pyIsSpace a = true ∧ pyIsSpace b = true)

/-- A text in the normal form produced by whitespace collapse and strip: no
two adjacent whitespace characters, every whitespace character is a plain
space, and neither end is whitespace. -/
def wsNormal (l : List Char) : Prop :=
  l.Chain' noTwoWs ∧
  (∀ c ∈ l, pyIsSpace c = true → c = ' ') ∧
  (∀ d, l.head? = some d → pyIsSpace d = false) ∧
  (∀ d, l.getLast? = some d → pyIsSpace d = false)

/-- A raw retrieval hit whose only content is a metadata log_id, used in the
concrete examples below. -/
def taggedHit (s : String) : RawHit :=
  { rid := none, similarity := none, document := none,
    log_metadata := some [(strChars "log_id", strChars s)] }

/-!  Helper lemmas. -/
theorem toLower_idem (c : Char) : c.toLower.toLower = c.toLower := by
  unfold Char.toLower
  by_cases h : c.toNat ≥ 65 ∧ c.toNat ≤ 90
  · have hv : ((Char.toNat c) + 32).isValidChar := by
      left
      have := h.2
      simp only [Char.toNat] at *
      omega
    have h1 : (Char.ofNat (c.toNat + 32)).toNat = c.toNat + 32 := by
      simp only [Char.ofNat, Char.toNat] at *
      rw [dif_pos hv]
      simp [Char.ofNatAux, UInt32.ofNat', Char.toNat, UInt32.toNat, BitVec.ofNatLt]
    simp only [if_pos h]
    rw [if_neg]
    rw [h1]
    have := h.1
    omega
  · simp only [if_neg h]

theorem mem_subScanGo (m : Option Char → List Char → Option Nat) (repl : List Char)
    (P : Char → Prop) (hr : ∀ c ∈ repl, P c) :
    ∀ (fuel : Nat) (prev : Option Char) (l : List Char), (∀ c ∈ l, P c) →
      ∀ c ∈ subScanGo m repl fuel prev l, P c := by
  intro fuel
  induction fuel with
  | zero =>
    intro prev l hl c hc
    simp only [subScanGo] at hc
    exact hl c hc
  | succ fuel ih =>
    intro prev l hl c hc
    cases l with
    | nil => simp [subScanGo] at hc
    | cons a as =>
      cases hm : m prev (a :: as) with
      | none =>
        simp only [subScanGo, hm] at hc
        rcases List.mem_cons.1 hc with rfl | hc2
        · exact hl c (by simp)
        · exact ih (some a) as (fun d hd => hl d (by simp [hd])) c hc2
      | some n =>
        cases n with
        | zero =>
          simp only [subScanGo, hm] at hc
          rcases List.mem_cons.1 hc with rfl | hc2
          · exact hl c (by simp)
          · exact ih (some a) as (fun d hd => hl d (by simp [hd])) c hc2
        | succ k =>
          simp only [subScanGo, hm] at hc
          rcases List.mem_append.1 hc with h1 | h2
          · exact hr c h1
          · refine ih _ _ (fun d hd => hl d ?_) c h2
            have : d ∈ as := List.drop_subset _ _ hd
            simp [this]

theorem mem_subScan (m : Option Char → List Char → Option Nat) (repl : List Char)
    (P : Char → Prop) (hr : ∀ c ∈ repl, P c) (l : List Char) (hl : ∀ c ∈ l, P c) :
    ∀ c ∈ subScan m repl l, P c :=
  mem_subScanGo m repl P hr l.length none l hl

theorem mem_collapseWs : ∀ (l : List Char), ∀ c ∈ collapseWs l, c = ' ' ∨ c ∈ l := by
  intro l
  induction l with
  | nil => simp [collapseWs]
  | cons a as ih =>
    cases as with
    | nil =>
      intro c hc
      by_cases h : pyIsSpace a <;> simp [collapseWs, h] at hc <;> simp [hc]
    | cons b bs =>
      intro c hc
      by_cases ha : pyIsSpace a
      · by_cases hb : pyIsSpace b
        · simp only [collapseWs, ha, hb, if_pos, and_self, if_true] at hc
          rcases ih c hc with h1 | h2
          · exact Or.inl h1
          · exact Or.inr (by simp [h2])
        · simp only [collapseWs, ha, hb, if_true, if_false] at hc
          rcases List.mem_cons.1 hc with rfl | hc2
          · exact Or.inl rfl
          · rcases ih c hc2 with h1 | h2
            · exact Or.inl h1
            · exact Or.inr (by simp [h2])
      · simp only [collapseWs, ha, if_false] at hc
        rcases List.mem_cons.1 hc with rfl | hc2
        · exact Or.inr (by simp)
        · rcases ih c hc2 with h1 | h2
          · exact Or.inl h1
          · exact Or.inr (by simp [h2])

theorem collapseWs_ws_space : ∀ (l : List Char), ∀ c ∈ collapseWs l, pyIsSpace c → c = ' ' := by
  intro l
  induction l with
  | nil => simp [collapseWs]
  | cons a as ih =>
    cases as with
    | nil =>
      intro c hc hws
      by_cases h : pyIsSpace a <;> simp [collapseWs, h] at hc
      · simp [hc]
      · subst hc; simp [h] at hws
    | cons b bs =>
      intro c hc hws
      by_cases ha : pyIsSpace a
      · by_cases hb : pyIsSpace b
        · simp only [collapseWs, ha, hb, and_self, if_true] at hc
          exact ih c hc hws
        · simp only [collapseWs, ha, hb, if_true, if_false] at hc
          rcases List.mem_cons.1 hc with rfl | hc2
          · rfl
          · exact ih c hc2 hws
      · simp only [collapseWs, ha, if_false] at hc
        rcases List.mem_cons.1 hc with rfl | hc2
        · simp [ha] at hws
        · exact ih c hc2 hws

theorem collapseWs_head (c : Char) (cs : List Char) (h : pyIsSpace c = false) :
    collapseWs (c :: cs) = c :: collapseWs cs := by
  cases cs <;> simp [collapseWs, h]

theorem chain_collapseWs : ∀ (l : List Char), (collapseWs l).Chain' noTwoWs := by
  intro l
  induction l with
  | nil => simp [collapseWs]
  | cons a as ih =>
    cases as with
    | nil =>
      by_cases h : pyIsSpace a <;> simp [collapseWs, h]
    | cons b bs =>
      by_cases ha : pyIsSpace a
      · by_cases hb : pyIsSpace b
        · simpa [collapseWs, ha, hb] using ih
        · have he : collapseWs (a :: b :: bs) = ' ' :: collapseWs (b :: bs) := by
            simp [collapseWs, ha, hb]
          rw [he, List.chain'_cons']
          refine ⟨?_, ih⟩
          intro y hy
          rw [collapseWs_head b bs (by simpa using hb)] at hy
          simp only [List.head?_cons, Option.mem_def, Option.some.injEq] at hy
          subst hy
          exact fun hcon => hb hcon.2
      · have he : collapseWs (a :: b :: bs) = a :: collapseWs (b :: bs) := by
          simp [collapseWs, ha]
        rw [he, List.chain'_cons']
        refine ⟨?_, ih⟩
        intro y _
        exact fun hcon => ha hcon.1

theorem collapseWs_fixed : ∀ (l : List Char), (∀ c ∈ l, pyIsSpace c → c = ' ') →
    l.Chain' noTwoWs → collapseWs l = l := by
  intro l
  induction l with
  | nil => simp [collapseWs]
  | cons a as ih =>
    cases as with
    | nil =>
      intro hws _
      by_cases h : pyIsSpace a
      · have : a = ' ' := hws a (by simp) h
        subst this
        simp [collapseWs]
      · simp [collapseWs, h]
    | cons b bs =>
      intro hws hch
      rw [List.chain'_cons'] at hch
      obtain ⟨hrel, hch2⟩ := hch
      have hnb : noTwoWs a b := hrel b (by simp)
      have hrest : collapseWs (b :: bs) = b :: bs :=
        ih (fun c hc hw => hws c (List.mem_cons_of_mem a hc) hw) hch2
      by_cases ha : pyIsSpace a
      · have hb : pyIsSpace b = false := by
          by_contra hcon
          exact hnb ⟨ha, by simpa using hcon⟩
        have ha2 : a = ' ' := hws a (by simp) ha
        have he : collapseWs (a :: b :: bs) = ' ' :: collapseWs (b :: bs) := by
          simp [collapseWs, ha, hb]
        rw [he, hrest, ha2]
      · have he : collapseWs (a :: b :: bs) = a :: collapseWs (b :: bs) := by
          simp [collapseWs, ha]
        rw [he, hrest]

theorem dropWhile_head_not (p : Char → Bool) :
    ∀ (l : List Char) (c : Char), (l.dropWhile p).head? = some c → p c = false := by
  intro l
  induction l with
  | nil => simp [List.dropWhile]
  | cons a as ih =>
    intro c h
    by_cases hp : p a
    · rw [List.dropWhile_cons_of_pos hp] at h
      exact ih c h
    · rw [List.dropWhile_cons_of_neg hp] at h
      simp only [List.head?_cons, Option.some.injEq] at h
      subst h
      simpa using hp

theorem dropWhile_eq_self_of_head (p : Char → Bool) (l : List Char)
    (h : ∀ c, l.head? = some c → p c = false) : l.dropWhile p = l := by
  cases l with
  | nil => rfl
  | cons a as => rw [List.dropWhile_cons_of_neg (by simp [h a rfl])]

theorem dropWhile_idem (p : Char → Bool) (l : List Char) :
    (l.dropWhile p).dropWhile p = l.dropWhile p :=
  dropWhile_eq_self_of_head p _ (dropWhile_head_not p l)

theorem revDropRev_front (p : Char → Bool) (l : List Char) :
    (l.reverse.dropWhile p).reverse <+: l := by
  have h1 : l.reverse.dropWhile p <:+ l.reverse := List.dropWhile_suffix p
  have h2 : (l.reverse.dropWhile p).reverse <+: l.reverse.reverse :=
    List.reverse_prefix.mpr h1
  simpa using h2

theorem prefix_head_eq {l₁ l₂ : List Char} (h : l₁ <+: l₂) (hne : l₁ ≠ []) :
    l₂.head? = l₁.head? := by
  obtain ⟨t, rfl⟩ := h
  cases l₁ with
  | nil => exact absurd rfl hne
  | cons a as => rfl

theorem pyStrip_infix_of (l : List Char) : pyStrip l <:+: l := by
  unfold pyStrip
  have h1 : ((l.dropWhile pyIsSpace).reverse.dropWhile pyIsSpace).reverse <+: l.dropWhile pyIsSpace :=
    revDropRev_front pyIsSpace (l.dropWhile pyIsSpace)
  have h2 : l.dropWhile pyIsSpace <:+ l := List.dropWhile_suffix pyIsSpace
  have h3 : ((l.dropWhile pyIsSpace).reverse.dropWhile pyIsSpace).reverse <:+: l.dropWhile pyIsSpace :=
    List.IsPrefix.isInfix h1
  have h4 : l.dropWhile pyIsSpace <:+: l := List.IsSuffix.isInfix h2
  exact h3.trans h4

theorem pyStrip_subset (l : List Char) : pyStrip l ⊆ l :=
  (pyStrip_infix_of l).subset

theorem pyStrip_head_not (l : List Char) (c : Char)
    (h : (pyStrip l).head? = some c) : pyIsSpace c = false := by
  have hne : pyStrip l ≠ [] := by
    intro he
    rw [he] at h
    simp at h
  have hpre : pyStrip l <+: l.dropWhile pyIsSpace :=
    revDropRev_front pyIsSpace (l.dropWhile pyIsSpace)
  have heq := prefix_head_eq hpre hne
  rw [h] at heq
  exact dropWhile_head_not pyIsSpace l c heq

theorem pyStrip_idem (l : List Char) : pyStrip (pyStrip l) = pyStrip l := by
  have h1 : (pyStrip l).dropWhile pyIsSpace = pyStrip l :=
    dropWhile_eq_self_of_head pyIsSpace _ (fun c hc => pyStrip_head_not l c hc)
  show ((((pyStrip l).dropWhile pyIsSpace).reverse.dropWhile pyIsSpace)).reverse = pyStrip l
  rw [h1]
  have h2 : (pyStrip l).reverse = (l.dropWhile pyIsSpace).reverse.dropWhile pyIsSpace := by
    unfold pyStrip
    rw [List.reverse_reverse]
  rw [h2, dropWhile_idem]
  unfold pyStrip
  rfl

theorem lowerStr_fixed (l : List Char) (h : ∀ c ∈ l, c.toLower = c) : lowerStr l = l := by
  unfold lowerStr
  rw [List.map_congr_left h]
  exact List.map_id l

theorem normalize_text_chars_lower (t : List Char) :
    ∀ c ∈ normalize_text t, c.toLower = c := by
  intro c hc
  unfold normalize_text at hc
  by_cases h0 : t = []
  · simp [h0] at hc
  · rw [if_neg h0] at hc
    have hc2 : c ∈ collapseWs (substPass (lowerStr t)) := pyStrip_subset _ hc
    rcases mem_collapseWs _ c hc2 with rfl | hc3
    · decide
    · have hbase : ∀ d ∈ lowerStr t, d.toLower = d := by
        intro d hd
        unfold lowerStr at hd
        obtain ⟨a, _, rfl⟩ := List.mem_map.1 hd
        exact toLower_idem a
      unfold substPass at hc3
      exact mem_subScan _ _ (fun d => d.toLower = d) (by decide) _
        (mem_subScan _ _ _ (by decide) _
          (mem_subScan _ _ _ (by decide) _
            (mem_subScan _ _ _ (by decide) _
              (mem_subScan _ _ _ (by decide) _ hbase)))) c hc3

theorem normalize_text_ws_space (t : List Char) :
    ∀ c ∈ normalize_text t, pyIsSpace c → c = ' ' := by
  intro c hc hws
  unfold normalize_text at hc
  by_cases h0 : t = []
  · simp [h0] at hc
  · rw [if_neg h0] at hc
    exact collapseWs_ws_space _ c (pyStrip_subset _ hc) hws

theorem normalize_text_chain (t : List Char) : (normalize_text t).Chain' noTwoWs := by
  unfold normalize_text
  by_cases h0 : t = []
  · simp [h0]
  · rw [if_neg h0]
    exact List.Chain'.infix (chain_collapseWs _) (pyStrip_infix_of _)

theorem collapseWs_normalize_fixed (t : List Char) :
    collapseWs (normalize_text t) = normalize_text t :=
  collapseWs_fixed _ (normalize_text_ws_space t) (normalize_text_chain t)

theorem pyStrip_normalize_fixed (t : List Char) :
    pyStrip (normalize_text t) = normalize_text t := by
  unfold normalize_text
  by_cases h0 : t = []
  · simp [h0, pyStrip]
  · rw [if_neg h0]
    exact pyStrip_idem _

theorem format_eq_filter_map (rs : List RawHit) (eid : Option ℤ) :
    format_retrieval_results rs eid = (rs.filter (fun r => !shouldSkip eid r)).map formatHit := by
  induction rs with
  | nil => rfl
  | cons r rs ih =>
    by_cases h : shouldSkip eid r <;>
      simp [format_retrieval_results, List.filter_cons, h, ih]

theorem clampConfidence_bounds (x : ExtFloat) :
    0 ≤ clampConfidence x ∧ clampConfidence x ≤ 1 := by
  cases x with
  | fin q =>
    refine ⟨le_max_left 0 _, ?_⟩
    apply max_le
    · norm_num
    · exact min_le_left 1 q
  | inf => exact ⟨by simp [clampConfidence], by simp [clampConfidence]⟩
  | ninf => exact ⟨by simp [clampConfidence], by simp [clampConfidence]⟩
  | nan => exact ⟨by simp [clampConfidence], by simp [clampConfidence]⟩

theorem head?_mem_self {α : Type} {l : List α} {a : α} (h : l.head? = some a) : a ∈ l := by
  cases l with
  | nil => simp at h
  | cons b bs =>
    simp only [List.head?_cons, Option.some.injEq] at h
    subst h
    exact List.mem_cons_self _ _

theorem chain'_of_all_nonws (l : List Char) (h : ∀ c ∈ l, pyIsSpace c = false) :
    l.Chain' noTwoWs := by
  induction l with
  | nil => simp
  | cons a as ih =>
    rw [List.chain'_cons']
    refine ⟨?_, ih (fun c hc => h c (List.mem_cons_of_mem a hc))⟩
    intro y _
    exact fun hcon => by simp [h a (by simp)] at hcon

theorem subScanGo_nil (m : Option Char → List Char → Option Nat) (repl : List Char)
    (fuel : Nat) (prev : Option Char) : subScanGo m repl fuel prev [] = [] := by
  cases fuel <;> rfl

theorem subScanGo_chain (m : Option Char → List Char → Option Nat) (repl : List Char)
    (hrne : repl ≠ []) (hrws : ∀ c ∈ repl, pyIsSpace c = false) :
    ∀ (fuel : Nat) (prev : Option Char) (l : List Char), l.Chain' noTwoWs →
      (subScanGo m repl fuel prev l).Chain' noTwoWs ∧
      (∀ d, (subScanGo m repl fuel prev l).head? = some d →
        l.head? = some d ∨ pyIsSpace d = false) := by
  intro fuel
  induction fuel with
  | zero =>
    intro prev l hch
    constructor
    · simpa [subScanGo] using hch
    · intro d hd
      simp only [subScanGo] at hd
      exact Or.inl hd
  | succ fuel ih =>
    intro prev l hch
    cases l with
    | nil => simp [subScanGo]
    | cons a as =>
      cases hm : m prev (a :: as) with
      | none =>
        have hrec := ih (some a) as hch.tail
        constructor
        · simp only [subScanGo, hm]
          rw [List.chain'_cons']
          refine ⟨?_, hrec.1⟩
          intro y hy
          rcases hrec.2 y hy with hhd | hnws
          · exact (List.chain'_cons'.1 hch).1 y hhd
          · exact fun hcon => by simp [hnws] at hcon
        · intro d hd
          simp only [subScanGo, hm, List.head?_cons, Option.some.injEq] at hd
          subst hd
          exact Or.inl rfl
      | some n =>
        cases n with
        | zero =>
          have hrec := ih (some a) as hch.tail
          constructor
          · simp only [subScanGo, hm]
            rw [List.chain'_cons']
            refine ⟨?_, hrec.1⟩
            intro y hy
            rcases hrec.2 y hy with hhd | hnws
            · exact (List.chain'_cons'.1 hch).1 y hhd
            · exact fun hcon => by simp [hnws] at hcon
          · intro d hd
            simp only [subScanGo, hm, List.head?_cons, Option.some.injEq] at hd
            subst hd
            exact Or.inl rfl
        | succ k =>
          have hchd : (as.drop k).Chain' noTwoWs :=
            hch.tail.suffix (List.drop_suffix k as)
          have hrec := ih ((a :: as).get? k) (as.drop k) hchd
          constructor
          · simp only [subScanGo, hm]
            rw [List.chain'_append]
            refine ⟨chain'_of_all_nonws repl hrws, hrec.1, ?_⟩
            intro x hx y _
            have hxmem : x ∈ repl := by
              have : repl.reverse.head? = some x := by
                rw [List.head?_reverse]
                exact hx
              exact List.mem_reverse.1 (head?_mem_self this)
            exact fun hcon => by simp [hrws x hxmem] at hcon
          · intro d hd
            simp only [subScanGo, hm] at hd
            rw [List.head?_append_of_ne_nil repl hrne] at hd
            exact Or.inr (hrws d (head?_mem_self hd))

theorem subScanGo_ne_nil (m : Option Char → List Char → Option Nat) (repl : List Char)
    (hrne : repl ≠ []) :
    ∀ (fuel : Nat) (prev : Option Char) (l : List Char), l ≠ [] →
      subScanGo m repl fuel prev l ≠ [] := by
  intro fuel prev l hl
  cases fuel with
  | zero => simpa [subScanGo] using hl
  | succ f =>
    cases l with
    | nil => exact absurd rfl hl
    | cons a as =>
      cases hm : m prev (a :: as) with
      | none => simp [subScanGo, hm]
      | some n =>
        cases n with
        | zero => simp [subScanGo, hm]
        | succ k =>
          simp only [subScanGo, hm]
          intro happ
          exact hrne (List.append_eq_nil.1 happ).1

theorem subScanGo_last (m : Option Char → List Char → Option Nat) (repl : List Char)
    (hrne : repl ≠ []) (hrws : ∀ c ∈ repl, pyIsSpace c = false) :
    ∀ (fuel : Nat) (prev : Option Char) (l : List Char) (d : Char),
      (subScanGo m repl fuel prev l).getLast? = some d →
      l.getLast? = some d ∨ pyIsSpace d = false := by
  intro fuel
  induction fuel with
  | zero =>
    intro prev l d hd
    simp only [subScanGo] at hd
    exact Or.inl hd
  | succ fuel ih =>
    intro prev l d hd
    cases l with
    | nil => simp [subScanGo] at hd
    | cons a as =>
      cases hm : m prev (a :: as) with
      | none =>
        simp only [subScanGo, hm] at hd
        cases as with
        | nil =>
          rw [subScanGo_nil] at hd
          simp only [List.getLast?_singleton, Option.some.injEq] at hd
          subst hd
          exact Or.inl (by simp)
        | cons b bs =>
          have hne : subScanGo m repl fuel (some a) (b :: bs) ≠ [] :=
            subScanGo_ne_nil m repl hrne fuel (some a) (b :: bs) (by simp)
          have hcons : (a :: subScanGo m repl fuel (some a) (b :: bs)).getLast? =
              (subScanGo m repl fuel (some a) (b :: bs)).getLast? := by
            cases hrec : subScanGo m repl fuel (some a) (b :: bs) with
            | nil => exact absurd hrec hne
            | cons r rs => rw [List.getLast?_cons_cons]
          rw [hcons] at hd
          rcases ih (some a) (b :: bs) d hd with hlast | hnws
          · exact Or.inl (by rw [List.getLast?_cons_cons]; exact hlast)
          · exact Or.inr hnws
      | some n =>
        cases n with
        | zero =>
          simp only [subScanGo, hm] at hd
          cases as with
          | nil =>
            rw [subScanGo_nil] at hd
            simp only [List.getLast?_singleton, Option.some.injEq] at hd
            subst hd
            exact Or.inl (by simp)
          | cons b bs =>
            have hne : subScanGo m repl fuel (some a) (b :: bs) ≠ [] :=
              subScanGo_ne_nil m repl hrne fuel (some a) (b :: bs) (by simp)
            have hcons : (a :: subScanGo m repl fuel (some a) (b :: bs)).getLast? =
                (subScanGo m repl fuel (some a) (b :: bs)).getLast? := by
              cases hrec : subScanGo m repl fuel (some a) (b :: bs) with
              | nil => exact absurd hrec hne
              | cons r rs => rw [List.getLast?_cons_cons]
            rw [hcons] at hd
            rcases ih (some a) (b :: bs) d hd with hlast | hnws
            · exact Or.inl (by rw [List.getLast?_cons_cons]; exact hlast)
            · exact Or.inr hnws
        | succ k =>
          simp only [subScanGo, hm] at hd
          cases hrec : subScanGo m repl fuel ((a :: as).get? k) (as.drop k) with
          | nil =>
            rw [hrec, List.append_nil] at hd
            refine Or.inr (hrws d ?_)
            have : repl.reverse.head? = some d := by
              rw [List.head?_reverse]; exact hd
            exact List.mem_reverse.1 (head?_mem_self this)
          | cons r rs =>
            rw [hrec] at hd
            rw [List.getLast?_append_of_ne_nil repl (by simp)] at hd
            rw [← hrec] at hd
            rcases ih ((a :: as).get? k) (as.drop k) d hd with hlast | hnws
            · left
              have hsufne : as.drop k ≠ [] := by
                intro hnil
                rw [hnil, subScanGo_nil] at hrec
                exact (List.cons_ne_nil r rs) hrec.symm
              have hsuf : as.drop k <:+ (a :: as) :=
                (List.drop_suffix k as).trans (List.suffix_cons a as)
              obtain ⟨t, ht⟩ := hsuf
              rw [← ht, List.getLast?_append_of_ne_nil t hsufne]
              exact hlast
            · exact Or.inr hnws

theorem subScan_wsNormal (m : Option Char → List Char → Option Nat) (repl : List Char)
    (hrne : repl ≠ []) (hrws : ∀ c ∈ repl, pyIsSpace c = false)
    (l : List Char) (h : wsNormal l) : wsNormal (subScan m repl l) := by
  obtain ⟨hch, hws, hhd, hlt⟩ := h
  refine ⟨(subScanGo_chain m repl hrne hrws l.length none l hch).1, ?_, ?_, ?_⟩
  · exact mem_subScanGo m repl (fun c => pyIsSpace c = true → c = ' ')
      (fun c hc hw => absurd hw (by simp [hrws c hc])) l.length none l hws
  · intro d hd
    rcases (subScanGo_chain m repl hrne hrws l.length none l hch).2 d hd with hl | hn
    · exact hhd d hl
    · exact hn
  · intro d hd
    rcases subScanGo_last m repl hrne hrws l.length none l d hd with hl | hn
    · exact hlt d hl
    · exact hn

theorem pyStrip_last_not (l : List Char) (c : Char)
    (h : (pyStrip l).getLast? = some c) : pyIsSpace c = false := by
  have hrev : ((l.dropWhile pyIsSpace).reverse.dropWhile pyIsSpace).head? = some c := by
    have : (pyStrip l).reverse.head? = (pyStrip l).getLast? := List.head?_reverse _
    rw [h] at this
    unfold pyStrip at this
    rw [List.reverse_reverse] at this
    exact this
  exact dropWhile_head_not pyIsSpace _ c hrev

theorem pyStrip_eq_self (l : List Char)
    (hhd : ∀ d, l.head? = some d → pyIsSpace d = false)
    (hlt : ∀ d, l.getLast? = some d → pyIsSpace d = false) : pyStrip l = l := by
  unfold pyStrip
  rw [dropWhile_eq_self_of_head pyIsSpace l hhd]
  have hr : l.reverse.dropWhile pyIsSpace = l.reverse := by
    apply dropWhile_eq_self_of_head
    intro d hd
    rw [List.head?_reverse] at hd
    exact hlt d hd
  rw [hr, List.reverse_reverse]

theorem normalize_text_wsNormal (t : List Char) : wsNormal (normalize_text t) := by
  refine ⟨normalize_text_chain t, normalize_text_ws_space t, ?_, ?_⟩
  · intro d hd
    unfold normalize_text at hd
    by_cases h0 : t = []
    · simp [h0] at hd
    · rw [if_neg h0] at hd
      exact pyStrip_head_not _ d hd
  · intro d hd
    unfold normalize_text at hd
    by_cases h0 : t = []
    · simp [h0] at hd
    · rw [if_neg h0] at hd
      exact pyStrip_last_not _ d hd

theorem substPass_wsNormal (l : List Char) (h : wsNormal l) : wsNormal (substPass l) := by
  unfold substPass
  apply subScan_wsNormal _ _ (by decide) (by decide)
  apply subScan_wsNormal _ _ (by decide) (by decide)
  apply subScan_wsNormal _ _ (by decide) (by decide)
  apply subScan_wsNormal _ _ (by decide) (by decide)
  exact subScan_wsNormal _ _ (by decide) (by decide) l h

theorem normalize_text_not_idem_of_unstable (t : List Char)
    (h : substPass (normalize_text t) ≠ normalize_text t) :
    normalize_text (normalize_text t) ≠ normalize_text t := by
  have hz : normalize_text t ≠ [] := by
    intro h0
    apply h
    rw [h0]
    rfl
  have hw : wsNormal (substPass (normalize_text t)) :=
    substPass_wsNormal _ (normalize_text_wsNormal t)
  have hcalc : normalize_text (normalize_text t) = substPass (normalize_text t) := by
    conv_lhs => rw [normalize_text]
    rw [if_neg hz]
    rw [lowerStr_fixed _ (normalize_text_chars_lower t)]
    rw [collapseWs_fixed _ hw.2.1 hw.1]
    exact pyStrip_eq_self _ hw.2.2.1 hw.2.2.2
  rw [hcalc]
  exact h

/-!  Claim theorems. -/

/-- Claim C1: for every generative-model output, however malformed, if
generate_resolution returns a result rather than raising, the confidence of
that result lies in the closed interval [0, 1].  The quantification is over
every possible parsed response value, covering both the JSON path and the
unstructured fallback. -/
theorem generate_resolution_confidence_in_unit_interval
    (result : PyVal) (out : GenOutput)
    (h : generate_resolution_post result = some out) :
    0 ≤ out.confidence ∧ out.confidence ≤ 1 := by
  cases result with
  | vnum x => simp [generate_resolution_post] at h
  | vstr s => simp [generate_resolution_post] at h
  | vbool b => simp [generate_resolution_post] at h
  | vnull => simp [generate_resolution_post] at h
  | vlist xs => simp [generate_resolution_post] at h
  | vdict kvs =>
    simp only [generate_resolution_post] at h
    cases hf : pyFloat (dictGet kvs (strChars "confidence") (.vnum (.fin (1/2)))) with
    | none => rw [hf] at h; simp at h
    | some x =>
      rw [hf] at h
      simp only [Option.some.injEq] at h
      rw [← h]
      exact clampConfidence_bounds x

/-- Claim C1 witness: the empty parsed dictionary yields a result whose
confidence is within [0, 1]. -/
theorem generate_resolution_confidence_in_unit_interval_witness :
    generate_resolution_post (.vdict []) =
      some { root_cause := .vstr (strChars "Unable to determine root cause"),
             recommended_fix := .vstr (strChars "No specific fix recommended"),
             confidence := clampConfidence (.fin (1/2)) } ∧
    (0 ≤ clampConfidence (.fin (1/2)) ∧ clampConfidence (.fin (1/2)) ≤ 1) :=
  ⟨rfl, generate_resolution_confidence_in_unit_interval (.vdict [])
    { root_cause := .vstr (strChars "Unable to determine root cause"),
      recommended_fix := .vstr (strChars "No specific fix recommended"),
      confidence := clampConfidence (.fin (1/2)) } rfl⟩

/-- Claim C2 counterexample: for the parsed response with confidence equal to
the JSON string high, float() raises, the surrounding handler converts the
error to a RAGError and generate_resolution returns no result at all, rather
than the claimed result with the default confidence 0.5. -/
theorem generate_resolution_string_confidence_raises :
    generate_resolution_post
        (.vdict [(strChars "root_cause", .vstr (strChars "Cache briefly down")),
                 (strChars "recommended_fix", .vstr (strChars "Restart the cache")),
                 (strChars "confidence", .vstr (strChars "high"))]) = none := rfl

/-- Claim C2 amended: a parsed response with no confidence key yields the
default confidence 0.5 (after clamping); a parsed response whose confidence
is a string float() cannot parse makes generate_resolution raise and return
nothing.  (Only the unstructured-fallback parser swallows a non-numeric
confidence line and keeps 0.5; on the strict-JSON path a non-numeric
confidence aborts the call.) -/
theorem generate_resolution_confidence_default_or_raise
    (kvs : List (List Char × PyVal)) :
    (kvs.lookup (strChars "confidence") = none →
      generate_resolution_post (.vdict kvs) =
        some { root_cause := dictGet kvs (strChars "root_cause")
                 (.vstr (strChars "Unable to determine root cause")),
               recommended_fix := dictGet kvs (strChars "recommended_fix")
                 (.vstr (strChars "No specific fix recommended")),
               confidence := 1/2 }) ∧
    (∀ s : List Char, kvs.lookup (strChars "confidence") = some (.vstr s) →
      parsePyFloatStr s = none →
      generate_resolution_post (.vdict kvs) = none) := by
  have hclamp : clampConfidence (.fin (1/2)) = 1/2 := by
    simp only [clampConfidence]
    rw [inf_eq_right.mpr (by norm_num : (1:ℚ)/2 ≤ 1),
        sup_eq_right.mpr (by norm_num : (0:ℚ) ≤ 1/2)]
  constructor
  · intro hnone
    have hd : dictGet kvs (strChars "confidence") (.vnum (.fin (1/2))) = .vnum (.fin (1/2)) := by
      unfold dictGet
      rw [hnone]
    simp only [generate_resolution_post, hd, pyFloat, hclamp]
  · intro s hs hp
    have hd : dictGet kvs (strChars "confidence") (.vnum (.fin (1/2))) = .vstr s := by
      unfold dictGet
      rw [hs]
    simp only [generate_resolution_post, hd, pyFloat, hp]

/-- Claim C2 amended witness: the empty dictionary takes the default branch
and the string high takes the raising branch. -/
theorem generate_resolution_confidence_default_or_raise_witness :
    generate_resolution_post (.vdict []) =
      some { root_cause := .vstr (strChars "Unable to determine root cause"),
             recommended_fix := .vstr (strChars "No specific fix recommended"),
             confidence := 1/2 } ∧
    generate_resolution_post (.vdict [(strChars "confidence", .vstr (strChars "high"))]) = none :=
  ⟨(generate_resolution_confidence_default_or_raise []).1 rfl,
   (generate_resolution_confidence_default_or_raise
      [(strChars "confidence", .vstr (strChars "high"))]).2 (strChars "high") rfl rfl⟩

/-- Claim C3: when retrieval and generation succeed but persisting the
resolution record raises, resolve_log_entry rolls the transaction back
(second component true), absorbs the error instead of propagating it, and
still returns the already-computed resolution with resolution_id none. -/
theorem resolve_log_entry_persistence_failure_absorbed
    (logEntry : LogEntry) (topK : Nat)
    (retrieve : List Char → Nat → Except Unit (List RawHit))
    (generate : List Char → List FormattedHit → List Char → Except Unit GenOutput)
    (hits : List RawHit) (res : GenOutput)
    (hr : retrieve (queryTextOf logEntry) (topK + 1) = .ok hits)
    (hg : generate logEntry.error_message
        ((format_retrieval_results hits (some logEntry.id)).take topK)
        (resolutionContext logEntry) = .ok res) :
    resolve_log_entry logEntry topK retrieve generate (some .commitFail) =
      .ok ({ log_entry_id := logEntry.id
             error_message := logEntry.error_message
             service_name := logEntry.service_name
             error_level := logEntry.error_level
             root_cause := res.root_cause
             recommended_fix := normalize_recommended_fix res.recommended_fix
             confidence := res.confidence
             similar_logs := (format_retrieval_results hits (some logEntry.id)).take topK
             resolution_id := none }, true) := by
  unfold resolve_log_entry
  rw [hr]
  simp only
  rw [hg]

/-- Claim C3 witness: a concrete run in which the commit raises still
returns the generated resolution, rolled back, with no resolution id. -/
theorem resolve_log_entry_persistence_failure_absorbed_witness :
    resolve_log_entry
        ⟨1, strChars "db", strChars "ERROR", strChars "Connection pool exhausted", none⟩ 5
        (fun _ _ => .ok [])
        (fun _ _ _ => .ok ⟨.vstr (strChars "Pool too small"),
                           .vstr (strChars "Increase pool size"), 1⟩)
        (some .commitFail) =
      .ok ({ log_entry_id := 1
             error_message := strChars "Connection pool exhausted"
             service_name := strChars "db"
             error_level := strChars "ERROR"
             root_cause := .vstr (strChars "Pool too small")
             recommended_fix := normalize_recommended_fix (.vstr (strChars "Increase pool size"))
             confidence := 1
             similar_logs := (format_retrieval_results [] (some 1)).take 5
             resolution_id := none }, true) :=
  resolve_log_entry_persistence_failure_absorbed
    ⟨1, strChars "db", strChars "ERROR", strChars "Connection pool exhausted", none⟩ 5
    (fun _ _ => .ok [])
    (fun _ _ _ => .ok ⟨.vstr (strChars "Pool too small"),
                       .vstr (strChars "Increase pool size"), 1⟩)
    [] ⟨.vstr (strChars "Pool too small"), .vstr (strChars "Increase pool size"), 1⟩
    rfl rfl

/-- Claim C4: every successful resolve_log_entry call returns at most top_k
similar logs: the implementation retrieves top_k + 1 hits, excludes the
record id during formatting and truncates the formatted list to top_k. -/
theorem resolve_log_entry_similar_logs_length_le_top_k
    (logEntry : LogEntry) (topK : Nat)
    (retrieve : List Char → Nat → Except Unit (List RawHit))
    (generate : List Char → List FormattedHit → List Char → Except Unit GenOutput)
    (db : Option DbOutcome) (out : ResolveLogOutput) (rolledBack : Bool)
    (h : resolve_log_entry logEntry topK retrieve generate db = .ok (out, rolledBack)) :
    out.similar_logs.length ≤ topK := by
  unfold resolve_log_entry at h
  cases hr : retrieve (queryTextOf logEntry) (topK + 1) with
  | error e => rw [hr] at h; simp at h
  | ok hits =>
    rw [hr] at h
    simp only at h
    cases hg : generate logEntry.error_message
        ((format_retrieval_results hits (some logEntry.id)).take topK)
        (resolutionContext logEntry) with
    | error e => rw [hg] at h; simp at h
    | ok res =>
      rw [hg] at h
      simp only [Except.ok.injEq, Prod.mk.injEq] at h
      obtain ⟨h1, -⟩ := h
      rw [← h1]
      exact List.length_take_le topK _

/-- Claim C4 witness: a concrete successful call with top_k = 2 returns at
most 2 similar logs. -/
theorem resolve_log_entry_similar_logs_length_le_top_k_witness :
    ((format_retrieval_results [taggedHit "8"] (some 1)).take 2).length ≤ 2 :=
  resolve_log_entry_similar_logs_length_le_top_k
    ⟨1, strChars "db", strChars "ERROR", strChars "boom", none⟩ 2
    (fun _ _ => .ok [taggedHit "8"]) (fun _ _ _ => .ok ⟨.vnull, .vnull, 1⟩) none
    { log_entry_id := 1, error_message := strChars "boom", service_name := strChars "db",
      error_level := strChars "ERROR", root_cause := .vnull,
      recommended_fix := normalize_recommended_fix .vnull, confidence := 1,
      similar_logs := (format_retrieval_results [taggedHit "8"] (some 1)).take 2,
      resolution_id := none } false rfl

/-- Claim C5 counterexample: a hit whose metadata has no log_id is kept even
though its resolved id (the index record id, here the string 7) string-equals
the exclude id 7; the claim as stated demands this hit be excluded, which
would make the result empty. -/
theorem format_retrieval_results_keeps_hit_without_metadata_log_id :
    format_retrieval_results
        [{ rid := some (strChars "7"), similarity := none, document := none,
           log_metadata := none }] (some 7) =
      [{ id := some (strChars "7"), similarity := 0, document := [],
         service_name := strChars "unknown", error_level := strChars "UNKNOWN",
         error_message := [] }] ∧
    intStr 7 = strChars "7" := ⟨rfl, rfl⟩

/-- Claim C5 amended: format_retrieval_results keeps the hits in index
order, dropping exactly those for which the exclude id is truthy, the
metadata log_id is truthy and the two stringify equal; for the spec example
with metadata ids 2, 7, 9 and exclude id 7 it returns exactly the formatted
hits with ids 2 and 9, in that order.  A hit whose resolved id coincides
with the exclude id only through the top-level index id is not dropped. -/
theorem format_retrieval_results_filter_characterization :
    (∀ (rs : List RawHit) (eid : Option ℤ),
        format_retrieval_results rs eid =
          (rs.filter (fun r => !shouldSkip eid r)).map formatHit) ∧
    format_retrieval_results [taggedHit "2", taggedHit "7", taggedHit "9"] (some 7) =
      [formatHit (taggedHit "2"), formatHit (taggedHit "9")] ∧
    (formatHit (taggedHit "2")).id = some (strChars "2") ∧
    (formatHit (taggedHit "9")).id = some (strChars "9") :=
  ⟨format_eq_filter_map, rfl, rfl, rfl⟩

/-- Claim C6 counterexample: normalize_text is not idempotent.  On the input
below the first pass replaces the ISO timestamp, leaving an IP-shaped token
directly after the placeholder; the second pass then replaces that token,
because the placeholder boundary enables the word-boundary anchor that the
digits of the timestamp had blocked. -/
theorem normalize_text_not_idempotent :
    normalize_text (strChars "2024-01-01 00:00:00123.2.3.4") =
      strChars "<timestamp>123.2.3.4" ∧
    normalize_text (normalize_text (strChars "2024-01-01 00:00:00123.2.3.4")) =
      strChars "<timestamp><ip>" ∧
    normalize_text (normalize_text (strChars "2024-01-01 00:00:00123.2.3.4")) ≠
      normalize_text (strChars "2024-01-01 00:00:00123.2.3.4") :=
  ⟨by decide, by decide, by decide⟩

/-- Stability of the normal form under the substitution pass gives
idempotence: the normal form is already lowercase, whitespace-collapsed and
stripped, so the second application only re-runs the substitutions. -/
theorem normalize_text_idem_of_substPass_fixed (t : List Char)
    (h : substPass (normalize_text t) = normalize_text t) :
    normalize_text (normalize_text t) = normalize_text t := by
  by_cases h0 : normalize_text t = []
  · rw [h0]
    simp [normalize_text]
  · conv_lhs => rw [normalize_text]
    rw [if_neg h0]
    rw [lowerStr_fixed _ (normalize_text_chars_lower t)]
    rw [h]
    rw [collapseWs_normalize_fixed t]
    exact pyStrip_normalize_fixed t

/-- Claim C6 amended: normalize_text is idempotent exactly on those inputs
whose normal form is left unchanged by a further round of the five
placeholder substitutions.  The lowercase, whitespace-collapse and strip
stages are always idempotent, and on a substitution-unstable normal form
they leave the re-substituted text untouched (placeholders introduce no new
whitespace, uppercase or end whitespace), so re-substitution is exactly the
source of change on a second application. -/
theorem normalize_text_idempotent_iff_substitutions_stable (t : List Char) :
    normalize_text (normalize_text t) = normalize_text t ↔
      substPass (normalize_text t) = normalize_text t := by
  constructor
  · intro hid
    by_contra hsub
    exact normalize_text_not_idem_of_unstable t hsub hid
  · exact normalize_text_idem_of_substPass_fixed t

/-- Claim C7 counterexample: the strip on each surviving line removes the
configured characters from both ends, not only leading ones: a trailing
space-hyphen is removed, where the claim predicts the line stays
step one hyphen. -/
theorem normalize_recommended_fix_strips_trailing_chars :
    normalize_recommended_fix (.vstr (strChars "step one -")) = [strChars "step one"] ∧
    strChars "step one" ≠ strChars "step one -" :=
  ⟨rfl, by decide⟩

/-- Claim C7 amended: falsy input gives the empty list; a list stringifies
and whitespace-trims each element, dropping those that become empty; a
string keeps every line whose whitespace strip is non-empty and strips from
both ends of each such line the characters space, hyphen, tab together with
the three mojibake characters standing for the bullet (the bullet itself is
not stripped, and a line of only strippable characters leaves an empty
string in the result); when no line survives the filter the result is the
whitespace-stripped whole string as a singleton; any other value is
stringified into a singleton. -/
theorem normalize_recommended_fix_amended :
    (∀ v : PyVal, pyTruthy v = false → normalize_recommended_fix v = []) ∧
    (∀ xs : List PyVal, normalize_recommended_fix (.vlist xs) =
        if xs.isEmpty then []
        else (xs.map (fun i => pyStrip (pyStr i))).filter (fun s => !s.isEmpty)) ∧
    (∀ s : List Char, normalize_recommended_fix (.vstr s) =
        if s.isEmpty then []
        else
          (fun ls => if ls.isEmpty then [pyStrip s] else ls)
            (((pySplitlines s).filter (fun ln => !(pyStrip ln).isEmpty)).map
              (pyStripChars bulletSet))) ∧
    normalize_recommended_fix (.vstr (strChars "- step one\n- step two\n")) =
      [strChars "step one", strChars "step two"] ∧
    normalize_recommended_fix
        (.vlist [.vstr (strChars "a"), .vstr (strChars " "), .vstr (strChars "b")]) =
      [strChars "a", strChars "b"] ∧
    normalize_recommended_fix (.vstr (strChars "single line fix")) =
      [strChars "single line fix"] ∧
    normalize_recommended_fix (.vstr (strChars "- ")) = [[]] ∧
    normalize_recommended_fix (.vstr (strChars "• step one")) = [strChars "• step one"] := by
  refine ⟨?_, ?_, ?_, rfl, ?_, rfl, rfl, rfl⟩
  · intro v hv
    unfold normalize_recommended_fix
    rw [hv]
    simp
  · intro xs
    cases xs with
    | nil => rfl
    | cons x xs => rfl
  · intro s
    cases s with
    | nil => rfl
    | cons c cs => rfl
  · rfl

/-- Claim C7 amended witness: None is falsy and normalizes to the empty
list. -/
theorem normalize_recommended_fix_amended_witness :
    pyTruthy PyVal.vnull = false ∧ normalize_recommended_fix PyVal.vnull = [] :=
  ⟨rfl, normalize_recommended_fix_amended.1 PyVal.vnull rfl⟩

/-- Claim C8: whenever the assembled prompt is longer than the configured
maximum context length, the prompt sent to the completion call is the prompt
cut to exactly that length with the trailing truncation marker appended. -/
theorem generate_resolution_prompt_truncated
    (maxContextLength : Nat) (errorMessage : List Char)
    (similarLogs : List FormattedHit) (context : Option (List Char))
    (h : maxContextLength < (build_prompt errorMessage similarLogs context).length) :
    sent_prompt maxContextLength errorMessage similarLogs context =
      (build_prompt errorMessage similarLogs context).take maxContextLength ++
        strChars "...[truncated]" ∧
    ((build_prompt errorMessage similarLogs context).take maxContextLength).length =
      maxContextLength := by
  constructor
  · unfold sent_prompt
    rw [if_pos h]
  · rw [List.length_take]
    exact min_eq_left h.le

set_option maxRecDepth 4000 in
/-- Claim C8 witness: with a maximum of 3 the concrete prompt is truncated
to 3 characters plus the marker. -/
theorem generate_resolution_prompt_truncated_witness :
    3 < (build_prompt (strChars "x") [] none).length ∧
    (sent_prompt 3 (strChars "x") [] none =
        (build_prompt (strChars "x") [] none).take 3 ++ strChars "...[truncated]" ∧
      ((build_prompt (strChars "x") [] none).take 3).length = 3) :=
  ⟨by decide, generate_resolution_prompt_truncated 3 (strChars "x") [] none (by decide)⟩

/-- Claim C9: on an input whose lines are entirely consumed by the prefix
substitutions, extract_error_message returns the empty string, not the
truncated raw input: str.split never returns an empty list, so the raw-input
fallback branch of the source is unreachable.  The intended fallback written
on text_cleaner.py line 155 would have returned the raw input ERROR-space
here. -/
theorem extract_error_message_empty_when_no_line_survives :
    extract_error_message (strChars "ERROR ") 500 = [] ∧
    strChars "ERROR " ≠ [] := by
  exact ⟨by decide, by decide⟩

/-- Claim C10: format_retrieval_results excludes a hit only when both the
exclude id and the metadata log_id are truthy: with exclude id 0 or None
nothing is excluded, and a hit without a metadata log_id is always kept,
whatever its top-level index id. -/
theorem format_retrieval_results_truthiness_guard :
    (∀ rs : List RawHit, format_retrieval_results rs (some 0) = rs.map formatHit) ∧
    (∀ rs : List RawHit, format_retrieval_results rs none = rs.map formatHit) ∧
    (∀ (rs : List RawHit) (eid : Option ℤ) (r : RawHit), r ∈ rs → metaLogId r = none →
        formatHit r ∈ format_retrieval_results rs eid) := by
  have hskip0 : ∀ r : RawHit, shouldSkip (some 0) r = false := by
    intro r
    unfold shouldSkip
    cases metaLogId r <;> simp
  have hskipN : ∀ r : RawHit, shouldSkip none r = false := by
    intro r
    unfold shouldSkip
    cases metaLogId r <;> simp
  refine ⟨?_, ?_, ?_⟩
  · intro rs
    rw [format_eq_filter_map]
    simp [hskip0]
  · intro rs
    rw [format_eq_filter_map]
    simp [hskipN]
  · intro rs eid r hmem hnone
    have hskip : shouldSkip eid r = false := by
      unfold shouldSkip
      rw [hnone]
      cases eid <;> rfl
    induction rs with
    | nil => simp at hmem
    | cons a as ih =>
      rcases List.mem_cons.1 hmem with rfl | h2
      · simp [format_retrieval_results, hskip]
      · by_cases hs : shouldSkip eid a
        · simp only [format_retrieval_results, hs, if_true]
          exact ih h2
        · simp only [format_retrieval_results, hs, if_false, Bool.false_eq_true]
          exact List.mem_cons_of_mem _ (ih h2)

/-- Claim C10 witness: a hit with no metadata log_id whose index id
stringifies to the exclude id is still kept. -/
theorem format_retrieval_results_truthiness_guard_witness :
    formatHit { rid := some (strChars "5"), similarity := none, document := none,
                log_metadata := none } ∈
      format_retrieval_results
        [{ rid := some (strChars "5"), similarity := none, document := none,
           log_metadata := none }] (some 5) :=
  format_retrieval_results_truthiness_guard.2.2 _ (some 5) _ (by simp) rfl
